import Mathlib

/-!
# Verification of the `si` streaming LLM client (`pkg/llm`)

A shallow embedding of the OpenAI-compatible streaming chat-completion
client: the endpoint resolver, the SSE stream decoder and the two public
operations `AskStream` and `Ask` of `openAIProvider`.

Modelling conventions:
* The HTTP transport is abstracted to the response it yields: a status code
  and a body string (`httpResponse`).
* `json.Unmarshal` into `streamResponse` (a Go standard-library collaborator)
  is abstracted to a function `parse : String → Option streamResponse`;
  `none` models an unmarshalling error.
* The caller's callback `func(chunk string) error` may close over state, so
  it is modelled state-passing: `cb : σ → String → Except ε σ`; `.error e`
  models a non-nil returned error.
* `bufio.Reader.ReadString` followed by the `io.EOF` break is modelled by
  `terminatedLines`: only newline-terminated segments of the body are
  processed; a trailing unterminated segment is discarded.
* Go `error` values produced by `AskStream` are modelled by `askError`:
  `httpError` for the non-OK status branch, `parseError` for the JSON
  decode branch, `callbackError e` for a callback error returned verbatim.
* The decoder run returns, besides the final callback state and outcome,
  the trace of strings passed to the callback, in invocation order.
-/

set_option autoImplicit false

namespace Si

/-- `streamDelta` from `pkg/llm/llm.go`: an absent JSON field decodes to `""`. -/
structure streamDelta where
  role : String
  content : String
deriving Repr, DecidableEq

/-- `streamChoice` from `pkg/llm/llm.go`. -/
structure streamChoice where
  index : Int
  delta : streamDelta
  finishReason : String
deriving Repr, DecidableEq

/-- `streamResponse` from `pkg/llm/llm.go` (the fields the decoder uses). -/
structure streamResponse where
  choices : List streamChoice
deriving Repr, DecidableEq

/-- `config.OpenAIConfig` from `pkg/config/config.go`. -/
structure OpenAIConfig where
  baseURL : String
  apiKey : String
  modelName : String
  azureDeploymentName : String
deriving Repr, DecidableEq

/-- The observable part of an HTTP response: status code and full body. -/
structure httpResponse where
  statusCode : Nat
  body : String
deriving Repr, DecidableEq

/-- Strip `ps` from the front of `cs`; `none` when `ps` is not a prefix. -/
def stripPrefixList : List Char → List Char → Option (List Char)
  | [], cs => some cs
  | _ :: _, [] => none
  | p :: ps, c :: cs => if c = p then stripPrefixList ps cs else none

/-- The white-space characters of Go's `unicode.IsSpace` (Latin-1 range). -/
def isSpaceChar (c : Char) : Bool :=
  c = ' ' ∨ c = '\t' ∨ c = '\n' ∨ c = '\x0b' ∨ c = '\x0c' ∨ c = '\r' ∨
    c = '\x85' ∨ c = '\xa0'

/-- Models `strings.TrimSpace`: drop white space from both ends. -/
def trimSpace (s : String) : String :=
  String.mk (((s.data.dropWhile isSpaceChar).reverse.dropWhile isSpaceChar).reverse)

/-- Models the pair `strings.HasPrefix(line, "data: ")` /
`strings.TrimPrefix(line, "data: ")` used by `AskStream`:
`some payload` when the prefix is present, `none` otherwise. -/
def dataPayload (line : String) : Option String :=
  (stripPrefixList "data: ".data line.data).map String.mk

/-- Accumulate the newline-terminated segments of a character stream,
dropping the trailing unterminated segment: this is the sequence of lines
the `reader.ReadString` loop of `AskStream` processes before `io.EOF`
breaks out (at EOF the partially read line is discarded). -/
def linesAux (acc : List Char) : List Char → List String
  | [] => []
  | c :: cs => if c = '\n' then String.mk acc :: linesAux [] cs else linesAux (acc ++ [c]) cs

/-- The lines of `body` that the read loop of `AskStream` processes. -/
def terminatedLines (body : String) : List String :=
  linesAux [] body.data

/-- Outcome of the decode loop of `AskStream` (after the status check). -/
inductive streamOutcome (ε : Type) where
  | ok : streamOutcome ε
  | parseError (payload : String) : streamOutcome ε
  | callbackError (e : ε) : streamOutcome ε
deriving Repr, DecidableEq

/-- The `for _, choice := range streamResp.Choices` loop of `AskStream`:
invoke the callback on each non-empty `delta.content`, stopping at the
first callback error. Returns the trace of callback arguments, the final
callback state and the error of the failed invocation, if any. -/
def runChoices {σ ε : Type} (cb : σ → String → Except ε σ) (s : σ) :
    List streamChoice → List String × σ × Option ε
  | [] => ([], s, none)
  | c :: cs =>
    if c.delta.content = "" then runChoices cb s cs
    else
      match cb s c.delta.content with
      | .error e => ([c.delta.content], s, some e)
      | .ok s' =>
        match runChoices cb s' cs with
        | (tr, s'', r) => (c.delta.content :: tr, s'', r)

/-- The line-processing loop of `AskStream` over the newline-terminated
lines: trim each line; skip it when empty or equal to `data: [DONE]`; skip
it when it lacks the `data: ` prefix; otherwise parse the payload (a parse
failure aborts with `parseError`) and run the choices of the chunk
(a callback error aborts with `callbackError`). -/
def runLines {σ ε : Type} (parse : String → Option streamResponse)
    (cb : σ → String → Except ε σ) (s : σ) :
    List String → List String × σ × streamOutcome ε
  | [] => ([], s, .ok)
  | l :: rest =>
    let line := trimSpace l
    if line = "" ∨ line = "data: [DONE]" then runLines parse cb s rest
    else
      match dataPayload line with
      | none => runLines parse cb s rest
      | some payload =>
        match parse payload with
        | none => ([], s, .parseError payload)
        | some resp =>
          match runChoices cb s resp.choices with
          | (tr, s', none) =>
            match runLines parse cb s' rest with
            | (tr', s'', r) => (tr ++ tr', s'', r)
          | (tr, s', some e) => (tr, s', .callbackError e)

/-- The errors `AskStream` can return once a response has been obtained. -/
inductive askError (ε : Type) where
  | httpError (status : Nat) (body : String) : askError ε
  | parseError (payload : String) : askError ε
  | callbackError (e : ε) : askError ε
deriving Repr, DecidableEq

/-- `openAIProvider.AskStream` from the point where the HTTP response is
available: if the status is not `http.StatusOK` (200) the fully read body
is wrapped in an error and nothing is decoded; otherwise the body's
terminated lines are decoded, driving the callback. -/
def askStream {σ ε : Type} (parse : String → Option streamResponse)
    (resp : httpResponse) (cb : σ → String → Except ε σ) (s : σ) :
    List String × σ × Option (askError ε) :=
  if resp.statusCode ≠ 200 then ([], s, some (.httpError resp.statusCode resp.body))
  else
    match runLines parse cb s (terminatedLines resp.body) with
    | (tr, s', .ok) => (tr, s', none)
    | (tr, s', .parseError p) => (tr, s', some (.parseError p))
    | (tr, s', .callbackError e) => (tr, s', some (.callbackError e))

/-- The callback `Ask` passes to `AskStream`: append the chunk to the
`strings.Builder` accumulator and return nil (it can never fail, hence the
`Empty` error type). -/
def accumCb : String → String → Except Empty String :=
  fun acc chunk => .ok (acc ++ chunk)

/-- `openAIProvider.Ask`: run `AskStream` with the accumulating callback;
on error return the empty string and that error, otherwise the
accumulated text. -/
def ask (parse : String → Option streamResponse) (resp : httpResponse) :
    String × Option (askError Empty) :=
  match askStream parse resp accumCb "" with
  | (_, s, none) => (s, none)
  | (_, _, some e) => ("", some e)

/-- `pat` occurs in some tail of the haystack. -/
def substrAux (needle : List Char) : List Char → Bool
  | [] => (stripPrefixList needle []).isSome
  | c :: cs => (stripPrefixList needle (c :: cs)).isSome || substrAux needle cs

/-- Models `strings.Contains`. -/
def containsSubstr (s pat : String) : Bool :=
  substrAux pat.data s.data

/-- Models `strings.HasSuffix`. -/
def hasSuffix (s suffix : String) : Bool :=
  (stripPrefixList suffix.data.reverse s.data.reverse).isSome

/-- Models `strings.TrimSuffix`: remove one occurrence of a trailing suffix. -/
def trimSuffix (s suffix : String) : String :=
  match stripPrefixList suffix.data.reverse s.data.reverse with
  | some rest => String.mk rest.reverse
  | none => s

/-- The endpoint computed by `AskStream` (llm.go lines 155-207): default an
empty base URL, then the Azure deployment form (appending `/` to the base
URL when absent) or the standard form (base URL verbatim when it already
contains `/chat/completions`, else with one trailing `/` trimmed and
`/chat/completions` appended). -/
def resolveEndpoint (cfg : OpenAIConfig) : String :=
  let baseURL := if cfg.baseURL = "" then "https://api.openai.com/v1" else cfg.baseURL
  if cfg.azureDeploymentName ≠ "" then
    let b := if hasSuffix baseURL "/" then baseURL else baseURL ++ "/"
    b ++ "openai/deployments/" ++ cfg.azureDeploymentName ++ "/chat/completions?api-version=2024-12-01-preview"
  else if containsSubstr baseURL "/chat/completions" then baseURL
  else trimSuffix baseURL "/" ++ "/chat/completions"

/-- The auth header set by `AskStream` (llm.go lines 218-223): `api-key`
with the raw key for Azure, otherwise `Authorization: Bearer`. -/
def authHeader (cfg : OpenAIConfig) : String × String :=
  if cfg.azureDeploymentName ≠ "" then ("api-key", cfg.apiKey)
  else ("Authorization", "Bearer " ++ cfg.apiKey)

/-- The non-empty `delta.content` strings of a choice list, in array
order: the fragments one decoded chunk contributes. -/
def choiceContents : List streamChoice → List String
  | [] => []
  | c :: cs =>
    if c.delta.content = "" then choiceContents cs
    else c.delta.content :: choiceContents cs

/-- The callback-independent fragment sequence of a line list: `none` when
some `data:` line fails to parse, otherwise the concatenation, line by
line, of each decoded chunk's non-empty contents. -/
def decodeFragments (parse : String → Option streamResponse) :
    List String → Option (List String)
  | [] => some []
  | l :: rest =>
    let line := trimSpace l
    if line = "" ∨ line = "data: [DONE]" then decodeFragments parse rest
    else
      match dataPayload line with
      | none => decodeFragments parse rest
      | some payload =>
        match parse payload with
        | none => none
        | some resp => (decodeFragments parse rest).map (fun frs => choiceContents resp.choices ++ frs)

/-! ## Helper lemmas about strings -/

theorem string_append_empty (s : String) : s ++ "" = s := by
  cases s with
  | mk d => exact congrArg String.mk (List.append_nil d)

theorem string_empty_append (s : String) : "" ++ s = s := rfl

theorem foldl_append_factor (l : List String) :
    ∀ x y : String,
      l.foldl (fun r s => r ++ s) (x ++ y) = x ++ l.foldl (fun r s => r ++ s) y := by
  induction l with
  | nil => intro x y; rfl
  | cons a l ih =>
    intro x y
    simp only [List.foldl_cons]
    rw [String.append_assoc]
    exact ih x (y ++ a)

theorem string_join_cons (a : String) (l : List String) :
    String.join (a :: l) = a ++ String.join l := by
  simp only [String.join, List.foldl_cons, string_empty_append]
  calc l.foldl (fun r s => r ++ s) a
      = l.foldl (fun r s => r ++ s) (a ++ "") := by rw [string_append_empty]
    _ = a ++ l.foldl (fun r s => r ++ s) "" := foldl_append_factor l a ""

/-! ## Lemmas about the choice loop -/

/-- The callback never returns an error (true of the accumulating callback
`Ask` uses; a hypothesis in claims that speak of undisturbed decoding). -/
def cbTotal {σ ε : Type} (cb : σ → String → Except ε σ) : Prop :=
  ∀ s c, ∃ s', cb s c = .ok s'

theorem accumCb_total : cbTotal accumCb :=
  fun s c => ⟨s ++ c, rfl⟩

theorem runChoices_total {σ ε : Type} {cb : σ → String → Except ε σ} (hcb : cbTotal cb)
    (cs : List streamChoice) :
    ∀ s : σ, ∃ s', runChoices cb s cs = (choiceContents cs, s', none) := by
  induction cs with
  | nil => intro s; exact ⟨s, rfl⟩
  | cons c cs ih =>
    intro s
    by_cases h : c.delta.content = ""
    · obtain ⟨s', hs'⟩ := ih s
      exact ⟨s', by simp [runChoices, choiceContents, h, hs']⟩
    · obtain ⟨s₁, h₁⟩ := hcb s c.delta.content
      obtain ⟨s', hs'⟩ := ih s₁
      exact ⟨s', by simp [runChoices, choiceContents, h, h₁, hs']⟩

theorem runChoices_none {σ ε : Type} {cb : σ → String → Except ε σ}
    {cs : List streamChoice} {s : σ} (h : (runChoices cb s cs).2.2 = none) :
    (runChoices cb s cs).1 = choiceContents cs := by
  induction cs generalizing s with
  | nil => rfl
  | cons c cs ih =>
    by_cases hc : c.delta.content = ""
    · simp only [runChoices, if_pos hc] at h ⊢
      rw [ih h, choiceContents, if_pos hc]
    · cases hcb : cb s c.delta.content with
      | error e => simp [runChoices, hc, hcb] at h
      | ok s₁ =>
        rcases hr : runChoices cb s₁ cs with ⟨tr, s₂, r⟩
        simp only [runChoices, if_neg hc, hcb, hr] at h ⊢
        have : (runChoices cb s₁ cs).2.2 = none := by rw [hr]; exact h
        have htr := ih this
        rw [hr] at htr
        rw [choiceContents, if_neg hc, ← htr]

theorem runChoices_all_empty {σ ε : Type} {cb : σ → String → Except ε σ}
    {cs : List streamChoice} (h : ∀ c ∈ cs, c.delta.content = "") (s : σ) :
    runChoices cb s cs = ([], s, none) := by
  induction cs with
  | nil => rfl
  | cons c cs ih =>
    have hc : c.delta.content = "" := h c (List.mem_cons_self c cs)
    rw [runChoices, if_pos hc]
    exact ih fun c' hc' => h c' (List.mem_cons_of_mem c hc')

theorem runChoices_not_mem_empty {σ ε : Type} {cb : σ → String → Except ε σ}
    {cs : List streamChoice} {s : σ} : "" ∉ (runChoices cb s cs).1 := by
  induction cs generalizing s with
  | nil => simp [runChoices]
  | cons c cs ih =>
    by_cases hc : c.delta.content = ""
    · rw [runChoices, if_pos hc]; exact ih
    · cases hcb : cb s c.delta.content with
      | error e =>
        simp only [runChoices, if_neg hc, hcb, List.mem_singleton]
        exact fun h => hc h.symm
      | ok s₁ =>
        rcases hr : runChoices cb s₁ cs with ⟨tr, s₂, r⟩
        simp only [runChoices, if_neg hc, hcb, hr, List.mem_cons, not_or]
        refine ⟨fun h => hc h.symm, ?_⟩
        have := @ih s₁
        rw [hr] at this
        exact this

theorem runChoices_error_last {σ ε : Type} {cb : σ → String → Except ε σ}
    {cs : List streamChoice} {s : σ} {e : ε}
    (h : (runChoices cb s cs).2.2 = some e) :
    ∃ tr s₁ frag, (runChoices cb s cs).1 = tr ++ [frag] ∧ cb s₁ frag = .error e := by
  induction cs generalizing s with
  | nil => simp [runChoices] at h
  | cons c cs ih =>
    by_cases hc : c.delta.content = ""
    · rw [runChoices, if_pos hc] at h ⊢
      exact ih h
    · cases hcb : cb s c.delta.content with
      | error e' =>
        simp only [runChoices, if_neg hc, hcb] at h ⊢
        obtain rfl : e' = e := by simpa using h
        exact ⟨[], s, c.delta.content, rfl, hcb⟩
      | ok s₁ =>
        rcases hr : runChoices cb s₁ cs with ⟨tr, s₂, r⟩
        simp only [runChoices, if_neg hc, hcb, hr] at h ⊢
        have h' : (runChoices cb s₁ cs).2.2 = some e := by rw [hr]; exact h
        obtain ⟨tr', s₃, frag, htr, hcb'⟩ := ih h'
        rw [hr] at htr
        exact ⟨c.delta.content :: tr', s₃, frag,
          by simpa using congrArg (List.cons c.delta.content) htr, hcb'⟩

theorem runChoices_accum (cs : List streamChoice) :
    ∀ s : String,
      runChoices accumCb s cs =
        (choiceContents cs, s ++ String.join (choiceContents cs), none) := by
  induction cs with
  | nil => intro s; simp [runChoices, choiceContents, String.join, string_append_empty]
  | cons c cs ih =>
    intro s
    by_cases hc : c.delta.content = ""
    · simp only [runChoices, choiceContents, if_pos hc]
      exact ih s
    · simp only [runChoices, choiceContents, if_neg hc, accumCb, ih (s ++ c.delta.content),
        string_join_cons, String.append_assoc]

/-! ## Unfolding lemmas for the line loop -/

theorem dataPayload_empty : dataPayload "" = none := rfl

theorem string_join_append (a b : List String) :
    String.join (a ++ b) = String.join a ++ String.join b := by
  induction a with
  | nil => simp [String.join, string_empty_append]
  | cons x a ih =>
    simp only [List.cons_append, string_join_cons, ih, String.append_assoc]

theorem runLines_skip {σ ε : Type} {parse : String → Option streamResponse}
    {cb : σ → String → Except ε σ} {s : σ} {l : String} {rest : List String}
    (h : trimSpace l = "" ∨ trimSpace l = "data: [DONE]") :
    runLines parse cb s (l :: rest) = runLines parse cb s rest := by
  rw [runLines, if_pos h]

theorem runLines_non_data {σ ε : Type} {parse : String → Option streamResponse}
    {cb : σ → String → Except ε σ} {s : σ} {l : String} {rest : List String}
    (h : dataPayload (trimSpace l) = none) :
    runLines parse cb s (l :: rest) = runLines parse cb s rest := by
  by_cases hc : trimSpace l = "" ∨ trimSpace l = "data: [DONE]"
  · rw [runLines, if_pos hc]
  · rw [runLines, if_neg hc, h]

theorem not_skip_of_payload {l : String} {p : String}
    (hne : trimSpace l ≠ "data: [DONE]") (hp : dataPayload (trimSpace l) = some p) :
    ¬(trimSpace l = "" ∨ trimSpace l = "data: [DONE]") := by
  rintro (h | h)
  · rw [h, dataPayload_empty] at hp; exact Option.noConfusion hp
  · exact hne h

theorem runLines_parse_none {σ ε : Type} {parse : String → Option streamResponse}
    {cb : σ → String → Except ε σ} {s : σ} {l : String} {rest : List String} {p : String}
    (hne : trimSpace l ≠ "data: [DONE]") (hp : dataPayload (trimSpace l) = some p)
    (hparse : parse p = none) :
    runLines parse cb s (l :: rest) = ([], s, .parseError p) := by
  rw [runLines, if_neg (not_skip_of_payload hne hp), hp]
  dsimp only
  rw [hparse]

theorem runLines_parse_some_ok {σ ε : Type} {parse : String → Option streamResponse}
    {cb : σ → String → Except ε σ} {s : σ} {l : String} {rest : List String}
    {p : String} {r : streamResponse} {tr : List String} {s' : σ}
    (hne : trimSpace l ≠ "data: [DONE]") (hp : dataPayload (trimSpace l) = some p)
    (hparse : parse p = some r) (hrc : runChoices cb s r.choices = (tr, s', none)) :
    runLines parse cb s (l :: rest) =
      (tr ++ (runLines parse cb s' rest).1,
        (runLines parse cb s' rest).2.1, (runLines parse cb s' rest).2.2) := by
  rw [runLines, if_neg (not_skip_of_payload hne hp), hp]
  dsimp only
  rw [hparse]
  dsimp only
  rw [hrc]

theorem runLines_parse_some_err {σ ε : Type} {parse : String → Option streamResponse}
    {cb : σ → String → Except ε σ} {s : σ} {l : String} {rest : List String}
    {p : String} {r : streamResponse} {tr : List String} {s' : σ} {e : ε}
    (hne : trimSpace l ≠ "data: [DONE]") (hp : dataPayload (trimSpace l) = some p)
    (hparse : parse p = some r) (hrc : runChoices cb s r.choices = (tr, s', some e)) :
    runLines parse cb s (l :: rest) = (tr, s', .callbackError e) := by
  rw [runLines, if_neg (not_skip_of_payload hne hp), hp]
  dsimp only
  rw [hparse]
  dsimp only
  rw [hrc]

theorem decodeFragments_skip {parse : String → Option streamResponse}
    {l : String} {rest : List String}
    (h : trimSpace l = "" ∨ trimSpace l = "data: [DONE]") :
    decodeFragments parse (l :: rest) = decodeFragments parse rest := by
  rw [decodeFragments, if_pos h]

theorem decodeFragments_non_data {parse : String → Option streamResponse}
    {l : String} {rest : List String} (h : dataPayload (trimSpace l) = none) :
    decodeFragments parse (l :: rest) = decodeFragments parse rest := by
  by_cases hc : trimSpace l = "" ∨ trimSpace l = "data: [DONE]"
  · rw [decodeFragments, if_pos hc]
  · rw [decodeFragments, if_neg hc, h]

theorem decodeFragments_parse_none {parse : String → Option streamResponse}
    {l : String} {rest : List String} {p : String}
    (hne : trimSpace l ≠ "data: [DONE]") (hp : dataPayload (trimSpace l) = some p)
    (hparse : parse p = none) :
    decodeFragments parse (l :: rest) = none := by
  rw [decodeFragments, if_neg (not_skip_of_payload hne hp), hp]
  dsimp only
  rw [hparse]

theorem decodeFragments_parse_some {parse : String → Option streamResponse}
    {l : String} {rest : List String} {p : String} {r : streamResponse}
    (hne : trimSpace l ≠ "data: [DONE]") (hp : dataPayload (trimSpace l) = some p)
    (hparse : parse p = some r) :
    decodeFragments parse (l :: rest) =
      (decodeFragments parse rest).map (fun frs => choiceContents r.choices ++ frs) := by
  rw [decodeFragments, if_neg (not_skip_of_payload hne hp), hp]
  dsimp only
  rw [hparse]

/-! ## Main lemmas about the line loop -/

theorem runLines_ok_decode {σ ε : Type} {parse : String → Option streamResponse}
    {cb : σ → String → Except ε σ} {ls : List String} {s : σ}
    (h : (runLines parse cb s ls).2.2 = .ok) :
    decodeFragments parse ls = some (runLines parse cb s ls).1 := by
  induction ls generalizing s with
  | nil => rfl
  | cons l rest ih =>
    by_cases hskip : trimSpace l = "" ∨ trimSpace l = "data: [DONE]"
    · rw [runLines_skip hskip] at h ⊢
      rw [decodeFragments_skip hskip]
      exact ih h
    · have hne : trimSpace l ≠ "data: [DONE]" := (not_or.mp hskip).2
      cases hp : dataPayload (trimSpace l) with
      | none =>
        rw [runLines_non_data hp] at h ⊢
        rw [decodeFragments_non_data hp]
        exact ih h
      | some p =>
        cases hparse : parse p with
        | none => rw [runLines_parse_none hne hp hparse] at h; exact absurd h (by simp)
        | some r =>
          rcases hrc : runChoices cb s r.choices with ⟨tr, s', ro⟩
          cases ro with
          | some e => rw [runLines_parse_some_err hne hp hparse hrc] at h; exact absurd h (by simp)
          | none =>
            rw [runLines_parse_some_ok hne hp hparse hrc] at h ⊢
            have htr : tr = choiceContents r.choices := by
              have := @runChoices_none σ ε cb r.choices s (by rw [hrc])
              rw [hrc] at this
              exact this
            rw [decodeFragments_parse_some hne hp hparse, ih h]
            simp [htr]

theorem runLines_decode_total {σ ε : Type} {parse : String → Option streamResponse}
    {cb : σ → String → Except ε σ} (hcb : cbTotal cb) {ls : List String}
    {frs : List String} (hdec : decodeFragments parse ls = some frs) :
    ∀ s : σ, ∃ s', runLines parse cb s ls = (frs, s', .ok) := by
  induction ls generalizing frs with
  | nil =>
    intro s
    obtain rfl : frs = [] := by simpa [decodeFragments] using hdec.symm
    exact ⟨s, rfl⟩
  | cons l rest ih =>
    intro s
    by_cases hskip : trimSpace l = "" ∨ trimSpace l = "data: [DONE]"
    · rw [decodeFragments_skip hskip] at hdec
      rw [runLines_skip hskip]
      exact ih hdec s
    · have hne : trimSpace l ≠ "data: [DONE]" := (not_or.mp hskip).2
      cases hp : dataPayload (trimSpace l) with
      | none =>
        rw [decodeFragments_non_data hp] at hdec
        rw [runLines_non_data hp]
        exact ih hdec s
      | some p =>
        cases hparse : parse p with
        | none =>
          rw [decodeFragments_parse_none hne hp hparse] at hdec
          exact absurd hdec (by simp)
        | some r =>
          rw [decodeFragments_parse_some hne hp hparse] at hdec
          obtain ⟨frs', hdec', rfl⟩ := Option.map_eq_some'.mp hdec
          obtain ⟨s₁, hrc⟩ := runChoices_total hcb r.choices s
          obtain ⟨s', hrest⟩ := ih hdec' s₁
          refine ⟨s', ?_⟩
          rw [runLines_parse_some_ok hne hp hparse hrc, hrest]

theorem runLines_append_ok {σ ε : Type} {parse : String → Option streamResponse}
    {cb : σ → String → Except ε σ} {pre : List String} {s s₁ : σ} {tr : List String}
    (h : runLines parse cb s pre = (tr, s₁, .ok)) (rest : List String) :
    runLines parse cb s (pre ++ rest) =
      (tr ++ (runLines parse cb s₁ rest).1,
        (runLines parse cb s₁ rest).2.1, (runLines parse cb s₁ rest).2.2) := by
  induction pre generalizing s tr with
  | nil =>
    obtain ⟨rfl, rfl, -⟩ : tr = [] ∧ s₁ = s ∧ True := by
      simpa [runLines, eq_comm] using congrArg (fun x => (x.1, x.2.1)) h.symm
    simp [List.nil_append]
  | cons l pre' ih =>
    by_cases hskip : trimSpace l = "" ∨ trimSpace l = "data: [DONE]"
    · rw [runLines_skip hskip] at h
      rw [List.cons_append, runLines_skip hskip]
      exact ih h
    · have hne : trimSpace l ≠ "data: [DONE]" := (not_or.mp hskip).2
      cases hp : dataPayload (trimSpace l) with
      | none =>
        rw [runLines_non_data hp] at h
        rw [List.cons_append, runLines_non_data hp]
        exact ih h
      | some p =>
        cases hparse : parse p with
        | none =>
          rw [runLines_parse_none hne hp hparse] at h
          exact absurd (congrArg (fun x => x.2.2) h) (by simp)
        | some r =>
          rcases hrc : runChoices cb s r.choices with ⟨tr₀, s', ro⟩
          cases ro with
          | some e =>
            rw [runLines_parse_some_err hne hp hparse hrc] at h
            exact absurd (congrArg (fun x => x.2.2) h) (by simp)
          | none =>
            rw [runLines_parse_some_ok hne hp hparse hrc] at h
            rcases hpre : runLines parse cb s' pre' with ⟨trp, sp, op⟩
            rw [hpre] at h
            dsimp only at h
            rw [Prod.mk.injEq, Prod.mk.injEq] at h
            obtain ⟨h1, h2, h3⟩ := h
            subst h3
            subst h2
            subst h1
            have ih' := ih hpre
            rw [List.cons_append, runLines_parse_some_ok hne hp hparse hrc, ih']
            simp [List.append_assoc]

theorem runLines_accum_state {parse : String → Option streamResponse}
    (ls : List String) :
    ∀ s : String,
      (runLines parse accumCb s ls).2.1 =
        s ++ String.join (runLines parse accumCb s ls).1 := by
  induction ls with
  | nil => intro s; simp [runLines, String.join, string_append_empty]
  | cons l rest ih =>
    intro s
    by_cases hskip : trimSpace l = "" ∨ trimSpace l = "data: [DONE]"
    · rw [runLines_skip hskip]; exact ih s
    · have hne : trimSpace l ≠ "data: [DONE]" := (not_or.mp hskip).2
      cases hp : dataPayload (trimSpace l) with
      | none => rw [runLines_non_data hp]; exact ih s
      | some p =>
        cases hparse : parse p with
        | none =>
          rw [runLines_parse_none hne hp hparse]
          simp [String.join, string_append_empty]
        | some r =>
          have hrc := runChoices_accum r.choices s
          rw [runLines_parse_some_ok hne hp hparse hrc]
          dsimp only
          rw [string_join_append, ih (s ++ String.join (choiceContents r.choices)),
            String.append_assoc]

theorem runLines_cbError_append {σ ε : Type} {parse : String → Option streamResponse}
    {cb : σ → String → Except ε σ} {ls₁ : List String} {s : σ} {e : ε}
    (h : (runLines parse cb s ls₁).2.2 = .callbackError e) (ls₂ : List String) :
    runLines parse cb s (ls₁ ++ ls₂) = runLines parse cb s ls₁ := by
  induction ls₁ generalizing s with
  | nil => exact absurd h (by simp [runLines])
  | cons l pre' ih =>
    by_cases hskip : trimSpace l = "" ∨ trimSpace l = "data: [DONE]"
    · rw [runLines_skip hskip] at h
      rw [List.cons_append, runLines_skip hskip, runLines_skip hskip]
      exact ih h
    · have hne : trimSpace l ≠ "data: [DONE]" := (not_or.mp hskip).2
      cases hp : dataPayload (trimSpace l) with
      | none =>
        rw [runLines_non_data hp] at h
        rw [List.cons_append, runLines_non_data hp, runLines_non_data hp]
        exact ih h
      | some p =>
        cases hparse : parse p with
        | none =>
          rw [runLines_parse_none hne hp hparse] at h
          exact absurd h (by simp)
        | some r =>
          rcases hrc : runChoices cb s r.choices with ⟨tr₀, s', ro⟩
          cases ro with
          | some e₀ =>
            rw [List.cons_append, runLines_parse_some_err hne hp hparse hrc,
              runLines_parse_some_err hne hp hparse hrc]
          | none =>
            rw [runLines_parse_some_ok hne hp hparse hrc] at h
            dsimp only at h
            rw [List.cons_append, runLines_parse_some_ok hne hp hparse hrc,
              runLines_parse_some_ok hne hp hparse hrc, ih h]

theorem runLines_cbError_last {σ ε : Type} {parse : String → Option streamResponse}
    {cb : σ → String → Except ε σ} {ls : List String} {s : σ} {e : ε}
    (h : (runLines parse cb s ls).2.2 = .callbackError e) :
    ∃ tr s₁ frag, (runLines parse cb s ls).1 = tr ++ [frag] ∧ cb s₁ frag = .error e := by
  induction ls generalizing s with
  | nil => exact absurd h (by simp [runLines])
  | cons l rest ih =>
    by_cases hskip : trimSpace l = "" ∨ trimSpace l = "data: [DONE]"
    · rw [runLines_skip hskip] at h ⊢
      exact ih h
    · have hne : trimSpace l ≠ "data: [DONE]" := (not_or.mp hskip).2
      cases hp : dataPayload (trimSpace l) with
      | none =>
        rw [runLines_non_data hp] at h ⊢
        exact ih h
      | some p =>
        cases hparse : parse p with
        | none =>
          rw [runLines_parse_none hne hp hparse] at h
          exact absurd h (by simp)
        | some r =>
          rcases hrc : runChoices cb s r.choices with ⟨tr₀, s', ro⟩
          cases ro with
          | some e₀ =>
            rw [runLines_parse_some_err hne hp hparse hrc] at h ⊢
            dsimp only at h
            injection h with he
            subst he
            have h' : (runChoices cb s r.choices).2.2 = some e₀ := by rw [hrc]
            obtain ⟨tr', s₁, frag, htr, hcb'⟩ := runChoices_error_last h'
            rw [hrc] at htr
            exact ⟨tr', s₁, frag, htr, hcb'⟩
          | none =>
            rw [runLines_parse_some_ok hne hp hparse hrc] at h ⊢
            dsimp only at h
            obtain ⟨tr', s₁, frag, htr, hcb'⟩ := ih h
            exact ⟨tr₀ ++ tr', s₁, frag, by rw [htr, List.append_assoc], hcb'⟩

theorem runLines_not_mem_empty {σ ε : Type} {parse : String → Option streamResponse}
    {cb : σ → String → Except ε σ} {ls : List String} {s : σ} :
    "" ∉ (runLines parse cb s ls).1 := by
  induction ls generalizing s with
  | nil => simp [runLines]
  | cons l rest ih =>
    by_cases hskip : trimSpace l = "" ∨ trimSpace l = "data: [DONE]"
    · rw [runLines_skip hskip]; exact ih
    · have hne : trimSpace l ≠ "data: [DONE]" := (not_or.mp hskip).2
      cases hp : dataPayload (trimSpace l) with
      | none => rw [runLines_non_data hp]; exact ih
      | some p =>
        cases hparse : parse p with
        | none => rw [runLines_parse_none hne hp hparse]; simp
        | some r =>
          rcases hrc : runChoices cb s r.choices with ⟨tr₀, s', ro⟩
          have htr : "" ∉ tr₀ := by
            have := @runChoices_not_mem_empty σ ε cb r.choices s
            rw [hrc] at this
            exact this
          cases ro with
          | some e₀ =>
            rw [runLines_parse_some_err hne hp hparse hrc]
            exact htr
          | none =>
            rw [runLines_parse_some_ok hne hp hparse hrc]
            dsimp only
            rw [List.mem_append, not_or]
            exact ⟨htr, ih⟩

/-! ## Lemmas about line extraction -/

theorem linesAux_no_newline {e : List Char} (he : ∀ c ∈ e, c ≠ '\n') :
    ∀ acc, linesAux acc e = [] := by
  induction e with
  | nil => intro acc; rfl
  | cons c cs ih =>
    intro acc
    have hc : c ≠ '\n' := he c (List.mem_cons_self c cs)
    rw [linesAux, if_neg hc]
    exact ih (fun c' h' => he c' (List.mem_cons_of_mem c h')) (acc ++ [c])

theorem linesAux_append_no_newline {e : List Char} (he : ∀ c ∈ e, c ≠ '\n')
    (cs : List Char) : ∀ acc, linesAux acc (cs ++ e) = linesAux acc cs := by
  induction cs with
  | nil =>
    intro acc
    rw [List.nil_append, linesAux_no_newline he acc]
    rfl
  | cons c cs ih =>
    intro acc
    by_cases hc : c = '\n'
    · rw [List.cons_append, linesAux, if_pos hc, linesAux, if_pos hc, ih []]
    · rw [List.cons_append, linesAux, if_neg hc, linesAux, if_neg hc, ih (acc ++ [c])]

/-! ## Concrete payloads and a concrete JSON decoder for examples

`demoParse` is a concrete instantiation of the abstract `parse` parameter:
it maps each payload below to exactly the `streamResponse` that Go's
`encoding/json` unmarshals it to (absent fields decode to `""`), and fails
on every other string (in particular on `jsonBad`, which is not JSON). -/

def jsonHello : String :=
  "\x7b\"choices\":[\x7b\"index\":0,\"delta\":\x7b\"content\":\"Hello\"\x7d,\"finish_reason\":null\x7d]\x7d"

def jsonWorld : String :=
  "\x7b\"choices\":[\x7b\"index\":0,\"delta\":\x7b\"content\":\" world\"\x7d,\"finish_reason\":null\x7d]\x7d"

def jsonBang : String :=
  "\x7b\"choices\":[\x7b\"index\":0,\"delta\":\x7b\"content\":\"!\"\x7d,\"finish_reason\":null\x7d]\x7d"

def jsonRole : String :=
  "\x7b\"choices\":[\x7b\"index\":0,\"delta\":\x7b\"role\":\"assistant\"\x7d,\"finish_reason\":null\x7d]\x7d"

def jsonStop : String :=
  "\x7b\"choices\":[\x7b\"index\":0,\"delta\":\x7b\x7d,\"finish_reason\":\"stop\"\x7d]\x7d"

def jsonTwo : String :=
  "\x7b\"choices\":[\x7b\"index\":0,\"delta\":\x7b\"content\":\"foo\"\x7d,\"finish_reason\":null\x7d,\x7b\"index\":1,\"delta\":\x7b\"content\":\"bar\"\x7d,\"finish_reason\":null\x7d]\x7d"

def jsonBad : String := "\x7bnot json"

def chunkHello : streamResponse := ⟨[⟨0, ⟨"", "Hello"⟩, ""⟩]⟩

def chunkWorld : streamResponse := ⟨[⟨0, ⟨"", " world"⟩, ""⟩]⟩

def chunkBang : streamResponse := ⟨[⟨0, ⟨"", "!"⟩, ""⟩]⟩

def chunkRole : streamResponse := ⟨[⟨0, ⟨"assistant", ""⟩, ""⟩]⟩

def chunkStop : streamResponse := ⟨[⟨0, ⟨"", ""⟩, "stop"⟩]⟩

def chunkTwo : streamResponse :=
  ⟨[⟨0, ⟨"", "foo"⟩, ""⟩, ⟨1, ⟨"", "bar"⟩, ""⟩]⟩

def demoParse (p : String) : Option streamResponse :=
  if p = jsonHello then some chunkHello
  else if p = jsonWorld then some chunkWorld
  else if p = jsonBang then some chunkBang
  else if p = jsonRole then some chunkRole
  else if p = jsonStop then some chunkStop
  else if p = jsonTwo then some chunkTwo
  else none

/-- Three content chunks, one per line, no blanks, no sentinel. -/
def bodyOrdered : String :=
  "data: " ++ jsonHello ++ "\ndata: " ++ jsonWorld ++ "\ndata: " ++ jsonBang ++ "\n"

/-- A realistic full stream: role-only first delta, two content chunks,
finish chunk, sentinel, with SSE blank separator lines. -/
def bodyFull : String :=
  "data: " ++ jsonRole ++ "\n\ndata: " ++ jsonHello ++ "\n\ndata: " ++ jsonWorld ++
    "\n\ndata: " ++ jsonStop ++ "\n\ndata: [DONE]\n"

/-- A sentinel line followed by a content line and a malformed line. -/
def bodyAfterDone : String :=
  "data: [DONE]\ndata: " ++ jsonHello ++ "\ndata: " ++ jsonBad ++ "\n"

/-- A content line, then a malformed line, then another content line. -/
def bodyBad : String :=
  "data: " ++ jsonHello ++ "\ndata: " ++ jsonBad ++ "\ndata: " ++ jsonWorld ++ "\n"

/-! ## Claim C3 -/

/-- Claim C3, counterexample: the claim says a `data: [DONE]` line
terminates decoding and that no fragment is emitted and no error arises
from lines after it. In the code the sentinel is merely skipped
(`continue`): on a body whose sentinel is followed by a content line and a
malformed line, the content fragment `"Hello"` IS emitted and a decode
error from the later malformed line IS returned. -/
theorem askStream_continues_after_done_cex :
    askStream demoParse ⟨200, bodyAfterDone⟩ accumCb "" =
      (["Hello"], "Hello", some (.parseError jsonBad)) ∧
    (askStream demoParse ⟨200, bodyAfterDone⟩ accumCb "").1 ≠ [] ∧
    (askStream demoParse ⟨200, bodyAfterDone⟩ accumCb "").2.2 ≠ none := by
  refine ⟨by decide, by decide, by decide⟩

/-- Claim C3 (amended): a `data: [DONE]` line is skipped exactly like a
blank line — it contributes no fragment and causes no error by itself, but
it does not terminate decoding: the remaining lines are processed as if
the sentinel were absent (termination happens only at end of stream). -/
theorem done_line_skipped {σ ε : Type} (parse : String → Option streamResponse)
    (cb : σ → String → Except ε σ) (s : σ) (l : String) (rest : List String)
    (h : trimSpace l = "data: [DONE]") :
    runLines parse cb s (l :: rest) = runLines parse cb s rest :=
  runLines_skip (Or.inr h)

/-- Witness for the amended C3 at a concrete sentinel line and tail. -/
theorem done_line_skipped_witness :
    runLines demoParse accumCb "" ("data: [DONE]" :: ["data: " ++ jsonHello]) =
      runLines demoParse accumCb "" ["data: " ++ jsonHello] :=
  done_line_skipped demoParse accumCb "" "data: [DONE]" ["data: " ++ jsonHello] (by decide)

/-! ## Claim C4 -/

/-- Claim C4, counterexample: the claim says the error is returned iff the
status is not 2xx. Status 204 is a 2xx status, yet the code
(`resp.StatusCode != http.StatusOK`) fails on it. -/
theorem non2xx_claim_cex :
    (200 ≤ 204 ∧ 204 < 300) ∧
    askStream demoParse ⟨204, "no content"⟩ accumCb "" =
      ([], "", some (.httpError 204 "no content")) := by
  refine ⟨by decide, by decide⟩

/-- Claim C4 (amended): `AskStream` returns the error carrying the status
code and the fully read body if and only if the status differs from 200
exactly (other 2xx statuses included); in that case the callback was
invoked zero times and the callback state is untouched. -/
theorem askStream_http_error_iff {σ ε : Type} (parse : String → Option streamResponse)
    (resp : httpResponse) (cb : σ → String → Except ε σ) (s : σ) :
    askStream parse resp cb s = ([], s, some (.httpError resp.statusCode resp.body)) ↔
      resp.statusCode ≠ 200 := by
  constructor
  · intro h hst
    rw [askStream, if_neg (by simp [hst])] at h
    rcases hr : runLines parse cb s (terminatedLines resp.body) with ⟨tr, s₁, out⟩
    rw [hr] at h
    cases out <;> simp at h
  · intro h
    rw [askStream, if_pos h]

/-- Witness for the amended C4 at the spec's own example: status 500 with
body `server error` surfaces as the status error before any callback. -/
theorem askStream_http_error_iff_witness :
    askStream demoParse ⟨500, "server error"⟩ accumCb "" =
      ([], "", some (.httpError 500 "server error")) :=
  (askStream_http_error_iff demoParse ⟨500, "server error"⟩ accumCb "").mpr (by decide)

/-! ## Claim C6 -/

/-- Normalize a string to end with exactly one slash (the claim's phrase
"baseURL normalized to end with exactly one `/`"). -/
def endWithOneSlash (s : String) : String :=
  String.mk ((s.data.reverse.dropWhile (fun c => c = '/')).reverse) ++ "/"

/-- The endpoint as claim C6 words it: on the Azure branch the base URL is
used as given (no empty default) normalized to exactly one trailing slash;
otherwise the empty default applies, then verbatim when the URL contains
`/chat/completions`, else one trailing slash stripped and the path
appended. -/
def claimEndpoint (cfg : OpenAIConfig) : String :=
  if cfg.azureDeploymentName ≠ "" then
    endWithOneSlash cfg.baseURL ++ "openai/deployments/" ++ cfg.azureDeploymentName ++
      "/chat/completions?api-version=2024-12-01-preview"
  else
    let b := if cfg.baseURL = "" then "https://api.openai.com/v1" else cfg.baseURL
    if containsSubstr b "/chat/completions" then b
    else trimSuffix b "/" ++ "/chat/completions"

/-- The auth header as claim C6 words it (this part matches the code). -/
def claimAuthHeader (cfg : OpenAIConfig) : String × String :=
  if cfg.azureDeploymentName ≠ "" then ("api-key", cfg.apiKey)
  else ("Authorization", "Bearer " ++ cfg.apiKey)

/-- The endpoint as the amended claim C6 words it: the empty-base-URL
default is applied before both branches, and on the Azure branch a slash
is appended only when the base URL does not already end with one (existing
trailing slashes are not collapsed). -/
def amendedEndpoint (cfg : OpenAIConfig) : String :=
  let b := if cfg.baseURL = "" then "https://api.openai.com/v1" else cfg.baseURL
  if cfg.azureDeploymentName ≠ "" then
    (if hasSuffix b "/" then b else b ++ "/") ++ "openai/deployments/" ++
      cfg.azureDeploymentName ++ "/chat/completions?api-version=2024-12-01-preview"
  else if containsSubstr b "/chat/completions" then b
  else trimSuffix b "/" ++ "/chat/completions"

/-- Claim C6, counterexample: the claimed endpoint rules disagree with the
code on the Azure branch in two ways. With an empty base URL the code
first applies the `https://api.openai.com/v1` default (the claim defaults
only on the non-Azure branch), and with a base URL ending in `//` the code
keeps both slashes (the claim normalizes to exactly one). -/
theorem endpoint_claim_cex :
    resolveEndpoint ⟨"", "key", "", "dep"⟩ =
      "https://api.openai.com/v1/openai/deployments/dep/chat/completions?api-version=2024-12-01-preview" ∧
    claimEndpoint ⟨"", "key", "", "dep"⟩ =
      "/openai/deployments/dep/chat/completions?api-version=2024-12-01-preview" ∧
    claimEndpoint ⟨"", "key", "", "dep"⟩ ≠ resolveEndpoint ⟨"", "key", "", "dep"⟩ ∧
    resolveEndpoint ⟨"https://h//", "key", "", "dep"⟩ =
      "https://h//openai/deployments/dep/chat/completions?api-version=2024-12-01-preview" ∧
    claimEndpoint ⟨"https://h//", "key", "", "dep"⟩ =
      "https://h/openai/deployments/dep/chat/completions?api-version=2024-12-01-preview" ∧
    claimEndpoint ⟨"https://h//", "key", "", "dep"⟩ ≠
      resolveEndpoint ⟨"https://h//", "key", "", "dep"⟩ := by
  refine ⟨by decide, by decide, by decide, by decide, by decide, by decide⟩

/-- Claim C6 (amended): for every configuration the endpoint the code
computes equals the amended rules (default first in both branches; Azure
appends `/` only when absent), and the auth header matches the claim as
stated. -/
theorem endpoint_resolution_amended (cfg : OpenAIConfig) :
    resolveEndpoint cfg = amendedEndpoint cfg ∧ authHeader cfg = claimAuthHeader cfg :=
  ⟨rfl, rfl⟩

/-- Witness for the amended C6 at the Azure configuration that separates
the claim from the code. -/
theorem endpoint_resolution_amended_witness :
    resolveEndpoint ⟨"https://h//", "key", "", "dep"⟩ =
      amendedEndpoint ⟨"https://h//", "key", "", "dep"⟩ ∧
    authHeader ⟨"https://h//", "key", "", "dep"⟩ =
      claimAuthHeader ⟨"https://h//", "key", "", "dep"⟩ :=
  endpoint_resolution_amended ⟨"https://h//", "key", "", "dep"⟩

/-! ## Claim C10 -/

/-- Claim C10: whenever the underlying `AskStream` run fails for any
reason, `Ask` returns the empty string together with that same error:
fragments accumulated before the failure are discarded. -/
theorem ask_empty_on_error (parse : String → Option streamResponse)
    (resp : httpResponse) (e : askError Empty)
    (h : (askStream parse resp accumCb "").2.2 = some e) :
    ask parse resp = ("", some e) := by
  rw [ask]
  rcases hr : askStream parse resp accumCb "" with ⟨tr, s₁, o⟩
  rw [hr] at h
  dsimp only at h
  subst h
  rfl

/-- Witness for C10: on a stream that fails mid-way the fragment
`"Hello"` was already accumulated, yet `Ask` returns the empty string
and the decode error. -/
theorem ask_empty_on_error_witness :
    ask demoParse ⟨200, bodyBad⟩ = ("", some (.parseError jsonBad)) :=
  ask_empty_on_error demoParse ⟨200, bodyBad⟩ (.parseError jsonBad) (by decide)

/-! ## Claim C1 -/

theorem runLines_forall₂ {σ ε : Type} {parse : String → Option streamResponse}
    {cb : σ → String → Except ε σ} (hcb : cbTotal cb)
    {lines : List String} {chunks : List streamResponse}
    (h : List.Forall₂ (fun l r => trimSpace l ≠ "data: [DONE]" ∧
        ∃ p, dataPayload (trimSpace l) = some p ∧ parse p = some r) lines chunks) :
    ∀ s : σ, ∃ s', runLines parse cb s lines =
      ((chunks.map fun r => choiceContents r.choices).flatten, s', .ok) := by
  induction h with
  | nil => intro s; exact ⟨s, rfl⟩
  | @cons l r lines' chunks' hrel hrest ih =>
    intro s
    obtain ⟨hne, p, hp, hparse⟩ := hrel
    obtain ⟨s₁, hrc⟩ := runChoices_total hcb r.choices s
    obtain ⟨s', hr⟩ := ih s₁
    refine ⟨s', ?_⟩
    rw [runLines_parse_some_ok hne hp hparse hrc, hr]
    simp

/-- Claim C1: on a body consisting of well-formed `data:` lines (each
parsing to a chunk, none being the sentinel), with a callback that never
fails, `AskStream` invokes the callback exactly once per non-empty delta,
in line order and, within one chunk, in choice-array order, each
invocation receiving exactly that delta string — the trace equals the
concatenation of the chunks' non-empty contents — and no error occurs.
In particular, with N single-choice chunks with non-empty contents the
callback runs exactly N times with the exact delta strings. -/
theorem askStream_emits_deltas_in_order {σ ε : Type}
    (parse : String → Option streamResponse) (resp : httpResponse)
    (cb : σ → String → Except ε σ) (s : σ) (chunks : List streamResponse)
    (hst : resp.statusCode = 200) (hcb : cbTotal cb)
    (h : List.Forall₂ (fun l r => trimSpace l ≠ "data: [DONE]" ∧
        ∃ p, dataPayload (trimSpace l) = some p ∧ parse p = some r)
      (terminatedLines resp.body) chunks) :
    (askStream parse resp cb s).1 = (chunks.map fun r => choiceContents r.choices).flatten ∧
    (askStream parse resp cb s).2.2 = none := by
  obtain ⟨s', hr⟩ := runLines_forall₂ hcb h s
  rw [askStream, if_neg (by simp [hst]), hr]
  exact ⟨rfl, rfl⟩

/-- Witness for C1: three single-choice content chunks produce exactly
their three delta strings, in order. -/
theorem askStream_emits_deltas_in_order_witness :
    (askStream demoParse ⟨200, bodyOrdered⟩ accumCb "").1 =
      ([chunkHello, chunkWorld, chunkBang].map fun r => choiceContents r.choices).flatten ∧
    (askStream demoParse ⟨200, bodyOrdered⟩ accumCb "").2.2 = none := by
  refine askStream_emits_deltas_in_order demoParse ⟨200, bodyOrdered⟩ accumCb ""
    [chunkHello, chunkWorld, chunkBang] rfl accumCb_total ?_
  dsimp only
  have hl : terminatedLines bodyOrdered =
      ["data: " ++ jsonHello, "data: " ++ jsonWorld, "data: " ++ jsonBang] := by decide
  rw [hl]
  exact .cons ⟨by decide, jsonHello, by decide, by decide⟩
    (.cons ⟨by decide, jsonWorld, by decide, by decide⟩
      (.cons ⟨by decide, jsonBang, by decide, by decide⟩ .nil))

/-! ## Claim C2 -/

/-- Claim C2: whenever `AskStream` processes a response without error
(for any callback), `Ask` on the same response returns exactly the
left-to-right, separator-free concatenation of the fragments `AskStream`
passed to that callback, in the same order. -/
theorem ask_eq_concat_of_fragments {σ ε : Type} (parse : String → Option streamResponse)
    (resp : httpResponse) (cb : σ → String → Except ε σ) (s₀ : σ)
    (h : (askStream parse resp cb s₀).2.2 = none) :
    ask parse resp = (String.join (askStream parse resp cb s₀).1, none) := by
  by_cases hst : resp.statusCode = 200
  case neg =>
    rw [askStream, if_pos hst] at h
    exact absurd h (by simp)
  case pos =>
    rw [askStream, if_neg (by simp [hst])] at h
    rcases hr : runLines parse cb s₀ (terminatedLines resp.body) with ⟨tr, s₁, out⟩
    rw [hr] at h
    cases out with
    | parseError p => dsimp only at h; exact absurd h (by simp)
    | callbackError e => dsimp only at h; exact absurd h (by simp)
    | ok =>
      have hok : (runLines parse cb s₀ (terminatedLines resp.body)).2.2 = .ok := by
        rw [hr]
      have hdec := runLines_ok_decode hok
      rw [hr] at hdec
      obtain ⟨s', haccum⟩ := runLines_decode_total accumCb_total hdec ""
      have hstate := @runLines_accum_state parse (terminatedLines resp.body) ""
      rw [haccum] at hstate
      dsimp only at hstate
      rw [string_empty_append] at hstate
      have h2 : askStream parse resp accumCb "" = (tr, s', none) := by
        rw [askStream, if_neg (by simp [hst]), haccum]
      have h1 : askStream parse resp cb s₀ = (tr, s₁, none) := by
        rw [askStream, if_neg (by simp [hst]), hr]
      rw [ask, h2, h1]
      dsimp only
      rw [hstate]

/-- Witness for C2 against a counting callback on a realistic stream. -/
def countCb : Nat → String → Except Unit Nat :=
  fun n _ => .ok (n + 1)

theorem ask_eq_concat_of_fragments_witness :
    ask demoParse ⟨200, bodyFull⟩ =
      (String.join (askStream demoParse ⟨200, bodyFull⟩ countCb 0).1, none) :=
  ask_eq_concat_of_fragments demoParse ⟨200, bodyFull⟩ countCb 0 (by decide)

/-! ## Claim C5 -/

/-- Claim C5: when some `data:` line's payload fails to parse, the whole
call aborts with the decode error for that payload: all fragments of the
well-formed lines before it were already delivered to the callback (the
trace is exactly their fragments) and nothing from the malformed line or
any later line is delivered. -/
theorem parse_error_aborts {σ ε : Type} (parse : String → Option streamResponse)
    (resp : httpResponse) (cb : σ → String → Except ε σ) (s : σ)
    (pre post : List String) (bad p : String) (frs : List String)
    (hst : resp.statusCode = 200)
    (hsplit : terminatedLines resp.body = pre ++ bad :: post)
    (hcb : cbTotal cb)
    (hpre : decodeFragments parse pre = some frs)
    (hne : trimSpace bad ≠ "data: [DONE]")
    (hp : dataPayload (trimSpace bad) = some p)
    (hparse : parse p = none) :
    ∃ s', askStream parse resp cb s = (frs, s', some (.parseError p)) := by
  obtain ⟨s₁, hpre'⟩ := runLines_decode_total hcb hpre s
  have happ := runLines_append_ok hpre' (bad :: post)
  rw [runLines_parse_none hne hp hparse] at happ
  dsimp only at happ
  rw [List.append_nil] at happ
  refine ⟨s₁, ?_⟩
  rw [askStream, if_neg (by simp [hst]), hsplit, happ]

/-- Witness for C5: the fragment before the malformed line is delivered,
then the call aborts with the decode error. -/
theorem parse_error_aborts_witness :
    ∃ s', askStream demoParse ⟨200, bodyBad⟩ accumCb "" =
      (["Hello"], s', some (.parseError jsonBad)) :=
  parse_error_aborts demoParse ⟨200, bodyBad⟩ accumCb "" ["data: " ++ jsonHello]
    ["data: " ++ jsonWorld] ("data: " ++ jsonBad) jsonBad ["Hello"] rfl (by decide)
    accumCb_total (by decide) (by decide) (by decide) (by decide)

/-! ## Claim C7 -/

/-- Claim C7: when the callback returns an error on some fragment,
decoding stops immediately after that invocation: the lines after the
failing point contribute nothing to the result (the whole call's outcome
is that of the prefix alone), the trace ends exactly at the fragment on
which the callback failed, and the error `AskStream` returns wraps the
callback's own error value verbatim. -/
theorem callback_error_stops {σ ε : Type} (parse : String → Option streamResponse)
    (resp : httpResponse) (cb : σ → String → Except ε σ) (s : σ)
    (ls₁ ls₂ : List String) (e : ε)
    (hst : resp.statusCode = 200)
    (hsplit : terminatedLines resp.body = ls₁ ++ ls₂)
    (h : (runLines parse cb s ls₁).2.2 = .callbackError e) :
    askStream parse resp cb s =
      ((runLines parse cb s ls₁).1, (runLines parse cb s ls₁).2.1,
        some (.callbackError e)) ∧
    ∃ tr s₁ frag, (runLines parse cb s ls₁).1 = tr ++ [frag] ∧ cb s₁ frag = .error e := by
  refine ⟨?_, runLines_cbError_last h⟩
  rw [askStream, if_neg (by simp [hst]), hsplit, runLines_cbError_append h ls₂]
  rcases hr : runLines parse cb s ls₁ with ⟨tr, s₁, out⟩
  rw [hr] at h
  dsimp only at h
  subst h
  rfl

/-- The concrete failing callback for the C7 witness: it rejects the
fragment `" world"` with its own error value. -/
def failCb : Unit → String → Except String Unit :=
  fun _ c => if c = " world" then .error "handler failed" else .ok ()

theorem callback_error_stops_witness :
    askStream demoParse ⟨200, bodyOrdered⟩ failCb () =
      ((runLines demoParse failCb () ["data: " ++ jsonHello, "data: " ++ jsonWorld]).1,
        (runLines demoParse failCb () ["data: " ++ jsonHello, "data: " ++ jsonWorld]).2.1,
        some (.callbackError "handler failed")) ∧
    ∃ tr s₁ frag,
      (runLines demoParse failCb () ["data: " ++ jsonHello, "data: " ++ jsonWorld]).1 =
        tr ++ [frag] ∧ failCb s₁ frag = .error "handler failed" :=
  callback_error_stops demoParse ⟨200, bodyOrdered⟩ failCb ()
    ["data: " ++ jsonHello, "data: " ++ jsonWorld] ["data: " ++ jsonBang]
    "handler failed" rfl (by decide) (by decide)

/-! ## Claim C8 -/

/-- Claim C8: the decoder never passes the empty string to the callback —
no run's trace contains `""` — and a `data:` line whose chunk has only
absent or empty contents (role-only or finish-reason-only deltas) behaves
exactly like a skipped line: zero callback invocations and no error. -/
theorem no_empty_fragment_and_empty_chunk_skipped :
    (∀ (σ ε : Type) (parse : String → Option streamResponse)
        (cb : σ → String → Except ε σ) (s : σ) (ls : List String),
      "" ∉ (runLines parse cb s ls).1) ∧
    (∀ (σ ε : Type) (parse : String → Option streamResponse)
        (cb : σ → String → Except ε σ) (s : σ) (l : String) (rest : List String)
        (p : String) (r : streamResponse),
      dataPayload (trimSpace l) = some p → parse p = some r →
      (∀ c ∈ r.choices, c.delta.content = "") →
      runLines parse cb s (l :: rest) = runLines parse cb s rest) := by
  constructor
  · intro σ ε parse cb s ls
    exact runLines_not_mem_empty
  · intro σ ε parse cb s l rest p r hp hparse hempty
    by_cases hskip : trimSpace l = "" ∨ trimSpace l = "data: [DONE]"
    · exact runLines_skip hskip
    · have hne : trimSpace l ≠ "data: [DONE]" := (not_or.mp hskip).2
      rw [runLines_parse_some_ok hne hp hparse (runChoices_all_empty hempty s)]
      simp

/-- Witness for C8: a full realistic stream never yields `""`, and a
role-only chunk line is a no-op. -/
theorem no_empty_fragment_and_empty_chunk_skipped_witness :
    "" ∉ (runLines demoParse accumCb "" (terminatedLines bodyFull)).1 ∧
    runLines demoParse accumCb "" (("data: " ++ jsonRole) :: ["data: " ++ jsonHello]) =
      runLines demoParse accumCb "" ["data: " ++ jsonHello] :=
  ⟨no_empty_fragment_and_empty_chunk_skipped.1 String Empty demoParse accumCb ""
      (terminatedLines bodyFull),
    no_empty_fragment_and_empty_chunk_skipped.2 String Empty demoParse accumCb ""
      ("data: " ++ jsonRole) ["data: " ++ jsonHello] jsonRole chunkRole
      (by decide) (by decide) (by decide)⟩

/-! ## Claim C9 -/

/-- Claim C9: a trailing partial line not terminated by a newline is
discarded without being decoded: appending any newline-free suffix to a
body changes nothing about an `AskStream` run — no extra callback
invocation, no error, identical outcome. -/
theorem trailing_partial_line_discarded {σ ε : Type}
    (parse : String → Option streamResponse) (cb : σ → String → Except ε σ) (s : σ)
    (body extra : String) (hextra : ∀ c ∈ extra.data, c ≠ '\n') :
    askStream parse ⟨200, body ++ extra⟩ cb s = askStream parse ⟨200, body⟩ cb s := by
  have hl : terminatedLines (body ++ extra) = terminatedLines body :=
    linesAux_append_no_newline hextra body.data []
  rw [askStream, askStream]
  dsimp only
  rw [if_neg (fun hh => hh rfl), if_neg (fun hh => hh rfl), hl]

/-- Witness for C9: an unterminated well-formed `data:` line at the end of
the body contributes nothing. -/
theorem trailing_partial_line_discarded_witness :
    askStream demoParse ⟨200, bodyOrdered ++ ("data: " ++ jsonWorld)⟩ accumCb "" =
      askStream demoParse ⟨200, bodyOrdered⟩ accumCb "" :=
  trailing_partial_line_discarded demoParse accumCb "" bodyOrdered
    ("data: " ++ jsonWorld) (by decide)

end Si
